import Mathlib

/-!
# Verification of the `tools` repository (mirror crawler + chunk splitter)

Shallow embedding of the two Python programs

  * `split_large_files.py` — `FileSplitter` (chunk splitter), and
  * `download_ubuntu_ports.py` — `UbuntuPortsDownloader` (mirror crawler),

together with proofs of the testable properties stated in the
natural-language specification.  File contents are modelled as `List Nat`
(byte sequences), paths and URLs as `String`, and the I/O environment
(HTTP responses, write failures) as explicit oracle arguments.
-/

namespace Tools

/-! ## Chunk splitter: `split_large_files.py` -/

/-- `f"{n:03d}"`: decimal digits of `n`, left-padded with zeros to width 3
(numbers of 4 or more digits are printed unpadded). -/
def pad3 (n : Nat) : String :=
  let s := toString n
  ⟨List.replicate (3 - s.length) '0'⟩ ++ s

/-- `chunk_filename = f"{file_path}.part{chunk_num:03d}"` from
`FileSplitter.split_file`. -/
def chunk_filename (p : String) (n : Nat) : String :=
  p ++ ".part" ++ pad3 n

/-- `num_chunks = (file_size + self.chunk_size_bytes - 1) // self.chunk_size_bytes`
from `FileSplitter.split_file` (Python floor division on nonnegative sizes). -/
def num_chunks (S C : Nat) : Nat := (S + C - 1) / C

/-- The chunk-writing loop of `FileSplitter.split_file`: starting with the
unread suffix `data` of the source file and 1-based chunk index `i`, perform
`n` iterations of "read `C` bytes, write them to `chunk_filename p i`".
The oracle `wOk i` tells whether writing chunk `i` succeeds; a failing write
raises, so the loop stops there (the partially written failing chunk is not
recorded; chunks already written remain).  Returns the list of fully written
chunk files `(name, bytes)` and whether every write succeeded. -/
def writeChunks (p : String) (C : Nat) (wOk : Nat → Bool) :
    List Nat → Nat → Nat → List (String × List Nat) × Bool
  | _, _, 0 => ([], true)
  | data, i, Nat.succ m =>
    if wOk i then
      let rest := writeChunks p C wOk (data.drop C) (i + 1) m
      ((chunk_filename p i, data.take C) :: rest.1, rest.2)
    else ([], false)

/-- Result of one `FileSplitter.split_file` call: the chunk files left on
disk, whether the original file was removed, and the boolean return value. -/
structure SplitResult where
  chunks : List (String × List Nat)
  removedOriginal : Bool
  ok : Bool
deriving DecidableEq

/-- `FileSplitter.split_file`: compute `num_chunks`, write the chunks in
increasing sequence order, then `os.remove` the original.  Any exception
(a chunk write failing, modelled by `wOk`, or the final remove failing,
modelled by `removeOk`) is caught: the failure counter is incremented and
`False` is returned; the original is removed only on the fully successful
path, which runs after the last chunk write. -/
def split_file (p : String) (data : List Nat) (C : Nat)
    (wOk : Nat → Bool) (removeOk : Bool) : SplitResult :=
  let w := writeChunks p C wOk data 1 (num_chunks data.length C)
  { chunks := w.1, removedOriginal := w.2 && removeOk, ok := w.2 && removeOk }

/-- Substring test on character lists, embedding Python's
`'.part' in filename`. -/
def containsSub (pat : List Char) : List Char → Bool
  | [] => pat.isEmpty
  | c :: t => pat.isPrefixOf (c :: t) || containsSub pat t

/-- The literal chunk marker `'.part'` used by `scan_and_split` to skip
files that are already chunks. -/
def chunk_marker : String := ".part"

/-- One file as seen by `FileSplitter.scan_and_split`: its name, its bytes
(`none` when `os.path.getsize` raises), and the I/O oracles consumed by
`split_file` if the file gets split. -/
structure ScanFile where
  name : String
  bytes : Option (List Nat)
  writeOk : Nat → Bool
  removeOk : Bool

/-- What `scan_and_split` did with one file. -/
inductive FileAction
  | skippedChunk    -- name contains `'.part'`: skipped before being counted
  | statOnlyError   -- `os.path.getsize` raised: counted scanned and failed
  | tooSmall        -- size not above the threshold: counted scanned only
  | splitSucceeded  -- `split_file` returned True
  | splitFailedRun  -- `split_file` returned False (it already counted the failure)
deriving DecidableEq

/-- Decision and outcome for one file in the `scan_and_split` loop,
mirroring the body of the `for filename in files` loop. -/
def scan_step (maxBytes chunkBytes : Nat) (f : ScanFile) : FileAction :=
  if containsSub chunk_marker.data f.name.data then .skippedChunk
  else
    match f.bytes with
    | none => .statOnlyError
    | some data =>
      if maxBytes < data.length then
        if (split_file f.name data chunkBytes f.writeOk f.removeOk).ok then
          .splitSucceeded
        else .splitFailedRun
      else .tooSmall

/-- The splitter's running totals (`files_scanned`, `files_split`,
`files_failed`). -/
structure SplitCounters where
  files_scanned : Nat
  files_split : Nat
  files_failed : Nat
deriving DecidableEq

/-- Counter updates of one loop iteration of `scan_and_split`
(`files_scanned` is incremented before the size check; `split_file` itself
increments `files_split`/`files_failed`; a `getsize` error increments
`files_failed` in the outer handler). -/
def apply_action (acc : SplitCounters) : FileAction → SplitCounters
  | .skippedChunk => acc
  | .statOnlyError =>
    { acc with files_scanned := acc.files_scanned + 1,
               files_failed := acc.files_failed + 1 }
  | .tooSmall => { acc with files_scanned := acc.files_scanned + 1 }
  | .splitSucceeded =>
    { acc with files_scanned := acc.files_scanned + 1,
               files_split := acc.files_split + 1 }
  | .splitFailedRun =>
    { acc with files_scanned := acc.files_scanned + 1,
               files_failed := acc.files_failed + 1 }

/-- `FileSplitter.scan_and_split`: the walk over all files, threading the
counters.  No per-file outcome stops the loop. -/
def scan_and_split (maxBytes chunkBytes : Nat) (acc : SplitCounters) :
    List ScanFile → SplitCounters
  | [] => acc
  | f :: rest =>
    scan_and_split maxBytes chunkBytes
      (apply_action acc (scan_step maxBytes chunkBytes f)) rest

/-- Whether a `FileAction` means `split_file` was invoked on the file. -/
def FileAction.attemptsSplit : FileAction → Bool
  | .splitSucceeded => true
  | .splitFailedRun => true
  | _ => false

/-- Outcome of `main` in `split_large_files.py` after argument parsing:
either the configuration check `CHUNK_SIZE_MB >= MAX_SIZE_MB` fails with
`sys.exit(1)`, or `scan_and_split` is run.  Sizes are Python ints (MB). -/
inductive MainOutcome
  | configErrorExit (code : Nat)
  | runScan (baseDir : String) (maxMB chunkMB : Int)
deriving DecidableEq

/-- The validation step of `main` (`split_large_files.py` lines 160-163),
applied after the integer arguments have parsed successfully. -/
def main_validate (baseDir : String) (maxMB chunkMB : Int) : MainOutcome :=
  if maxMB ≤ chunkMB then .configErrorExit 1 else .runScan baseDir maxMB chunkMB

/-- Whether a `MainOutcome` reaches filesystem scanning. -/
def MainOutcome.scans : MainOutcome → Bool
  | .runScan .. => true
  | _ => false

/-! ## Mirror crawler: `download_ubuntu_ports.py` -/

/-- Python's lexicographic `<=` on strings, elementwise by code point, a
proper prefix being smaller. -/
def lexLe : List Char → List Char → Bool
  | [], _ => true
  | _ :: _, [] => false
  | x :: xs, y :: ys => x.toNat < y.toNat || (x == y && lexLe xs ys)

/-- Python string `<=` lifted to `String`. -/
def strLe (a b : String) : Bool := lexLe a.data b.data

/-- Python's `s.rstrip('/')`: remove every trailing `'/'`. -/
def rstripSlashes (s : String) : String :=
  ⟨(s.data.reverse.dropWhile (fun c => c == '/')).reverse⟩

/-- Python truthiness of an optional string (`not x` is true exactly for
`None` and the empty string). -/
def truthyStr : Option String → Bool
  | none => false
  | some s => !s.isEmpty

/-- `UbuntuPortsDownloader.should_process_directory`: strip trailing
slashes from the name, then branch on which of `start_dir`/`end_dir` are
set (Python truthiness), comparing against the bounds with their own
trailing slashes stripped. -/
def should_process_directory (start_dir end_dir : Option String)
    (dirname : String) : Bool :=
  let d := rstripSlashes dirname
  if !truthyStr start_dir && !truthyStr end_dir then true
  else if truthyStr start_dir && !truthyStr end_dir then
    strLe (rstripSlashes (start_dir.getD "")) d
  else if !truthyStr start_dir && truthyStr end_dir then
    strLe d (rstripSlashes (end_dir.getD ""))
  else
    strLe (rstripSlashes (start_dir.getD "")) d &&
      strLe d (rstripSlashes (end_dir.getD ""))

/-- The range filter as the spec's sentence words it: `start ≤ d ≤ end`
with an absent (`none`) bound imposing no constraint, `d` being the
directory name with its trailing separator stripped.  Stated for
comparison with `should_process_directory`. -/
def shouldProcessSpecC3 (start_dir end_dir : Option String) (d : String) : Bool :=
  (match start_dir with
   | none => true
   | some s => strLe s d) &&
  (match end_dir with
   | none => true
   | some e => strLe d e)

/-- The amended range filter: a bound that is absent **or empty** imposes
no constraint, and present bounds are compared with their trailing slashes
stripped. -/
def shouldProcessAmendedC3 (start_dir end_dir : Option String) (d : String) : Bool :=
  (!truthyStr start_dir || strLe (rstripSlashes (start_dir.getD "")) d) &&
  (!truthyStr end_dir || strLe d (rstripSlashes (end_dir.getD "")))

/-- Tri-state download outcome tracked by the crawler's counters. -/
inductive Outcome
  | Downloaded
  | Skipped
  | Failed
deriving DecidableEq

/-- Result of one `download_file` call: which counter was incremented, the
bytes at `local_path` afterwards (`none` = no file), and whether a GET
body transfer was attempted. -/
structure DownloadResult where
  outcome : Outcome
  localAfter : Option (List Nat)
  fetchedBody : Bool
deriving DecidableEq

/-- `UbuntuPortsDownloader.download_file`, with the HTTP environment as
oracles:

* `head`: `none` when the HEAD request raises (connection error, timeout,
  or a malformed `content-length` making `int()` raise); `some cl` when it
  returns, `cl` the parsed `content-length` header (`none` = header
  absent, which Python defaults to `0`);
* `bodyGet`: `none` when the GET request, its status check, or the
  streamed write raises; `some b` when the full body `b` is streamed and
  written;
* `leftoverOnFail`: the bytes left at `local_path` when the GET path
  raises (unchanged file if the failure precedes the `open`, a partial
  write otherwise);
* `localBefore`: the bytes at `local_path` before the call.

Everything runs inside one `try`: an exception anywhere (HEAD included)
lands in the handler that increments `failed_count`. -/
def download_file (head : Option (Option Nat)) (bodyGet : Option (List Nat))
    (leftoverOnFail : Option (List Nat)) (localBefore : Option (List Nat)) :
    DownloadResult :=
  match localBefore with
  | some l =>
    match head with
    | none => { outcome := .Failed, localAfter := some l, fetchedBody := false }
    | some cl =>
      if l.length = cl.getD 0 then
        { outcome := .Skipped, localAfter := some l, fetchedBody := false }
      else
        match bodyGet with
        | none => { outcome := .Failed, localAfter := leftoverOnFail, fetchedBody := true }
        | some b => { outcome := .Downloaded, localAfter := some b, fetchedBody := true }
  | none =>
    match bodyGet with
    | none => { outcome := .Failed, localAfter := leftoverOnFail, fetchedBody := true }
    | some b => { outcome := .Downloaded, localAfter := some b, fetchedBody := true }

/-- The path component of a URL of the shape `scheme://host[/path]`
(no query or fragment — the only shape the crawler builds), as
`urllib.parse.urlparse(url).path`: everything from the first `'/'` after
the `://` authority; `""` when the authority is not followed by `'/'`. -/
def urlPath (url : String) : String :=
  ⟨pathChars url.data⟩
where
  /-- Drop characters up to and including the first `"://"`. -/
  afterScheme : List Char → List Char
    | ':' :: '/' :: '/' :: rest => rest
    | _ :: t => afterScheme t
    | [] => []
  /-- Drop the authority: keep from the first `'/'` on. -/
  dropToSlash : List Char → List Char
    | [] => []
    | c :: t => if c = '/' then c :: t else dropToSlash t
  pathChars (l : List Char) : List Char := dropToSlash (afterScheme l)

/-- The literal pool prefix hard-coded in
`UbuntuPortsDownloader.get_local_path`. -/
def pool_prefix : String := "/ubuntu-ports/pool/universe/"

/-- Python's `s.replace(pat, '', 1)` on character lists: delete the first
occurrence of `pat` (taken nonempty). -/
def removeFirst (pat : List Char) : List Char → List Char
  | [] => []
  | c :: t => if pat.isPrefixOf (c :: t) then (c :: t).drop pat.length else c :: removeFirst pat t

/-- POSIX `os.path.join(a, b)`: an absolute `b` discards `a`; otherwise
concatenate, inserting `'/'` unless `a` is empty or already ends in one. -/
def posixJoin (a b : String) : String :=
  if b.data.head? = some '/' then b
  else if a.data = [] ∨ a.data.getLast? = some '/' then a ++ b
  else a ++ "/" ++ b

/-- `UbuntuPortsDownloader.get_local_path`: take the URL's path, remove
the first occurrence of the literal `/ubuntu-ports/pool/universe/` when
the path starts with it, and `os.path.join` the remainder onto
`output_dir`. -/
def get_local_path (output_dir url : String) : String :=
  let p := urlPath url
  let rel :=
    if pool_prefix.data.isPrefixOf p.data then ⟨removeFirst pool_prefix.data p.data⟩
    else p
  posixJoin output_dir rel

/-- The stripping step as the spec words it: the path with the literal
pool prefix dropped when present.  Stated for comparison with
`get_local_path`. -/
def stripPoolPrefix (p : String) : String :=
  if pool_prefix.data.isPrefixOf p.data then ⟨p.data.drop pool_prefix.data.length⟩
  else p

/-- `UbuntuPortsDownloader.crawl_and_download`, recording the directory
listing fetches it performs as `(url, depth)` pairs.  `listing` is the
parsed-listing oracle (`get_directory_listing`); a link is a directory
iff it ends in `'/'` (`is_directory`); the first-level range filter
applies at `depth = 0` only; child URLs are resolved as
`urljoin(url + '/', link)`, which for the relative child links the parser
keeps is `url ++ "/" ++ link`.  Recursion stops unconditionally at
`depth > 20`, before any fetch. -/
def crawl_and_download (listing : String → List String)
    (start_dir end_dir : Option String) (url : String) (depth : Nat) :
    List (String × Nat) :=
  if _h : 20 < depth then []
  else
    (url, depth) ::
      (listing url).flatMap (fun link =>
        if link.endsWith "/" then
          if depth = 0 && !should_process_directory start_dir end_dir link then []
          else crawl_and_download listing start_dir end_dir (url ++ "/" ++ link) (depth + 1)
        else [])
termination_by 21 - depth
decreasing_by omega

/-! ## Helper lemmas about the splitter -/

/-- The chunk loop reports success iff every write in its index range
succeeded. -/
theorem writeChunks_snd_true_iff (p : String) (C : Nat) (wOk : Nat → Bool) :
    ∀ (n : Nat) (data : List Nat) (i : Nat),
      (writeChunks p C wOk data i n).2 = true ↔
        ∀ k, i ≤ k → k < i + n → wOk k = true := by
  intro n
  induction n with
  | zero => intro data i; simp [writeChunks]; omega
  | succ m ih =>
    intro data i
    by_cases h : wOk i = true
    · simp only [writeChunks, h, if_true]
      rw [ih (data.drop C) (i + 1)]
      constructor
      · intro hall k hk1 hk2
        rcases Nat.eq_or_lt_of_le hk1 with rfl | hlt
        · exact h
        · exact hall k hlt (by omega)
      · intro hall k hk1 hk2
        exact hall k (by omega) (by omega)
    · simp only [writeChunks, h, if_false]
      constructor
      · intro hfalse; exact absurd hfalse (by simp)
      · intro hall
        exact absurd (hall i (Nat.le_refl i) (by omega)) h

/-- On a fully successful run, the chunk loop writes exactly the `n`
sequential `C`-byte slices of the data, under the sequence-numbered
names. -/
theorem writeChunks_fst_of_success (p : String) (C : Nat) (wOk : Nat → Bool) :
    ∀ (n : Nat) (data : List Nat) (i : Nat),
      (writeChunks p C wOk data i n).2 = true →
        (writeChunks p C wOk data i n).1 =
          (List.range n).map
            (fun j => (chunk_filename p (i + j), (data.drop (j * C)).take C)) := by
  intro n
  induction n with
  | zero => intro data i _; simp [writeChunks]
  | succ m ih =>
    intro data i hok
    cases h : wOk i with
    | true =>
      simp only [writeChunks, h, if_true] at hok ⊢
      rw [ih (data.drop C) (i + 1) hok]
      rw [List.range_succ_eq_map, List.map_cons, List.map_map]
      congr 1
      · simp
      · apply List.map_congr_left
        intro j _
        simp only [Function.comp_apply, List.drop_drop, Nat.succ_eq_add_one,
          Nat.add_mul, Nat.one_mul]
        have h3 : i + 1 + j = i + (j + 1) := by omega
        have h4 : C + j * C = j * C + C := by omega
        rw [h3, h4]
    | false =>
      simp [writeChunks, h] at hok

/-- Concatenating the sequential `C`-byte slices recovers the data, as
soon as the slices cover its whole length. -/
theorem join_range_chunks (C : Nat) :
    ∀ (n : Nat) (data : List Nat), data.length ≤ n * C →
      ((List.range n).map (fun j => (data.drop (j * C)).take C)).flatten = data := by
  intro n
  induction n with
  | zero =>
    intro data h
    rw [Nat.zero_mul] at h
    have hnil : data = [] := List.eq_nil_of_length_eq_zero (by omega)
    simp [hnil]
  | succ m ih =>
    intro data h
    have h' : data.length ≤ m * C + C := by
      rw [Nat.succ_mul] at h; exact h
    rw [List.range_succ_eq_map, List.map_cons, List.map_map, List.flatten_cons]
    have h2 : (List.map ((fun j => (data.drop (j * C)).take C) ∘ Nat.succ)
        (List.range m)) =
        (List.range m).map (fun j => ((data.drop C).drop (j * C)).take C) := by
      apply List.map_congr_left
      intro j _
      simp only [Function.comp_apply, List.drop_drop, Nat.succ_eq_add_one,
        Nat.add_mul, Nat.one_mul]
      have h4 : C + j * C = j * C + C := by omega
      rw [h4]
    have hlen : (data.drop C).length ≤ m * C := by
      rw [List.length_drop]; omega
    rw [h2, ih (data.drop C) hlen]
    simp

/-- `num_chunks S C` chunks of `C` bytes cover `S` bytes. -/
theorem le_num_chunks_mul (S C : Nat) (hC : 0 < C) : S ≤ num_chunks S C * C := by
  unfold num_chunks
  have h1 := Nat.mod_add_div (S + C - 1) C
  have h2 := Nat.mod_lt (S + C - 1) hC
  rw [Nat.mul_comm]
  generalize C * ((S + C - 1) / C) = m at h1 ⊢
  omega

/-- One chunk fewer than `num_chunks S C` does not cover `S > 0` bytes. -/
theorem num_chunks_pred_mul_lt (S C : Nat) (hS : 0 < S) (hC : 0 < C) :
    (num_chunks S C - 1) * C < S := by
  unfold num_chunks
  have h1 := Nat.mod_add_div (S + C - 1) C
  have h2 := Nat.mod_lt (S + C - 1) hC
  rw [Nat.sub_mul, Nat.one_mul, Nat.mul_comm]
  generalize C * ((S + C - 1) / C) = m at h1 ⊢
  omega

/-- With a positive size there is at least one chunk. -/
theorem num_chunks_pos (S C : Nat) (hS : 0 < S) (hC : 0 < C) :
    0 < num_chunks S C := by
  by_contra h
  have h0 : num_chunks S C = 0 := by omega
  have := le_num_chunks_mul S C hC
  rw [h0] at this
  omega

/-- `scan_and_split` counts every file whose name lacks the chunk marker
as scanned, whatever happens to it — in particular the loop keeps going
past failed files. -/
theorem scan_scanned_count (maxBytes chunkBytes : Nat) :
    ∀ (files : List ScanFile) (acc : SplitCounters),
      (scan_and_split maxBytes chunkBytes acc files).files_scanned =
        acc.files_scanned +
          (files.filter
            (fun g => !containsSub chunk_marker.data g.name.data)).length := by
  intro files
  induction files with
  | nil => intro acc; simp [scan_and_split]
  | cons f rest ih =>
    intro acc
    rw [scan_and_split, ih]
    cases hf : containsSub chunk_marker.data f.name.data with
    | true =>
      have hstep : scan_step maxBytes chunkBytes f = .skippedChunk := by
        simp [scan_step, hf]
      rw [hstep]
      simp [apply_action, List.filter, hf]
    | false =>
      have hone : (apply_action acc (scan_step maxBytes chunkBytes f)).files_scanned =
          acc.files_scanned + 1 := by
        have hstep : scan_step maxBytes chunkBytes f ≠ .skippedChunk := by
          simp only [scan_step, hf]
          cases f.bytes with
          | none => simp
          | some data =>
            by_cases hsz : maxBytes < data.length <;>
              by_cases hok : (split_file f.name data chunkBytes f.writeOk f.removeOk).ok <;>
                simp [hsz, hok]
        cases ha : scan_step maxBytes chunkBytes f <;>
          first
          | exact absurd ha hstep
          | simp [apply_action]
      rw [hone]
      simp [List.filter, hf]
      omega

/-! ## Claim C1 — chunk round-trip of `split_file` -/

/-- **C1.** For a source file of `S > 0` bytes and chunk size `C > 0`, a
successful `split_file` run produces exactly `⌈S/C⌉ = (S + C - 1) / C`
chunk files, named `path ++ ".part" ++` the 1-based sequence number
zero-padded to 3 digits, in increasing sequence order; every chunk holds
at most `C` bytes and every chunk before the last exactly `C`;
concatenating the chunk payloads in sequence order yields the original
bytes; and the original file was removed.  The last two conjuncts state
that the chunk count is the ceiling of `S / C`. -/
theorem C1_split_roundtrip (p : String) (data : List Nat) (C : Nat)
    (wOk : Nat → Bool) (removeOk : Bool)
    (hS : 0 < data.length) (hC : 0 < C)
    (hok : (split_file p data C wOk removeOk).ok = true) :
    (split_file p data C wOk removeOk).chunks =
      (List.range (num_chunks data.length C)).map
        (fun j => (chunk_filename p (j + 1), (data.drop (j * C)).take C))
    ∧ (split_file p data C wOk removeOk).chunks.length = num_chunks data.length C
    ∧ ((split_file p data C wOk removeOk).chunks.all
        (fun c => c.2.length ≤ C)) = true
    ∧ ((split_file p data C wOk removeOk).chunks.dropLast.all
        (fun c => c.2.length = C)) = true
    ∧ ((split_file p data C wOk removeOk).chunks.map Prod.snd).flatten = data
    ∧ (split_file p data C wOk removeOk).removedOriginal = true
    ∧ data.length ≤ num_chunks data.length C * C
    ∧ (num_chunks data.length C - 1) * C < data.length := by
  have hw2 : (writeChunks p C wOk data 1 (num_chunks data.length C)).2 = true ∧
      removeOk = true := by
    have h := hok
    simp only [split_file, Bool.and_eq_true] at h
    exact h
  have hc1 : (split_file p data C wOk removeOk).chunks =
      (List.range (num_chunks data.length C)).map
        (fun j => (chunk_filename p (j + 1), (data.drop (j * C)).take C)) := by
    show (writeChunks p C wOk data 1 (num_chunks data.length C)).1 = _
    rw [writeChunks_fst_of_success p C wOk (num_chunks data.length C) data 1 hw2.1]
    apply List.map_congr_left
    intro j _
    rw [Nat.add_comm 1 j]
  refine ⟨hc1, ?_, ?_, ?_, ?_, ?_, ?_, ?_⟩
  · rw [hc1]; simp
  · rw [hc1, List.all_eq_true]
    intro c hc
    simp only [List.mem_map, List.mem_range] at hc
    obtain ⟨j, _, rfl⟩ := hc
    simp only [decide_eq_true_eq, List.length_take]
    exact Nat.min_le_left _ _
  · rw [hc1]
    obtain ⟨m, hm⟩ : ∃ m, num_chunks data.length C = m + 1 := by
      have := num_chunks_pos data.length C hS hC
      exact ⟨num_chunks data.length C - 1, by omega⟩
    rw [hm, List.range_succ, List.map_append, List.map_singleton,
      List.dropLast_concat, List.all_eq_true]
    intro c hc
    simp only [List.mem_map, List.mem_range] at hc
    obtain ⟨j, hj, rfl⟩ := hc
    have hmul : (j + 1) * C ≤ m * C := mul_le_mul_right' (by omega) C
    have hlt := num_chunks_pred_mul_lt data.length C hS hC
    rw [hm] at hlt
    simp only [Nat.add_sub_cancel] at hlt
    have hcov : j * C + C ≤ data.length := by
      rw [Nat.add_mul, Nat.one_mul] at hmul
      omega
    simp only [decide_eq_true_eq, List.length_take, List.length_drop]
    omega
  · rw [hc1, List.map_map]
    have hsnd : (Prod.snd ∘ fun j =>
        (chunk_filename p (j + 1), (data.drop (j * C)).take C)) =
        fun j => (data.drop (j * C)).take C := rfl
    rw [hsnd]
    exact join_range_chunks C (num_chunks data.length C) data
      (le_num_chunks_mul data.length C hC)
  · show ((writeChunks p C wOk data 1 (num_chunks data.length C)).2 && removeOk) = true
    rw [hw2.1, hw2.2]
    rfl
  · exact le_num_chunks_mul data.length C hC
  · exact num_chunks_pred_mul_lt data.length C hS hC

/-- Witness for C1 at a 5-byte file split into 2-byte chunks. -/
theorem C1_split_roundtrip_witness :
    (split_file "f" [0, 1, 2, 3, 4] 2 (fun _ => true) true).chunks =
      [("f.part001", [0, 1]), ("f.part002", [2, 3]), ("f.part003", [4])]
    ∧ (split_file "f" [0, 1, 2, 3, 4] 2 (fun _ => true) true).removedOriginal = true := by
  have h := C1_split_roundtrip "f" [0, 1, 2, 3, 4] 2 (fun _ => true) true
    (by decide) (by decide) (by decide)
  refine ⟨?_, h.2.2.2.2.2.1⟩
  rw [h.1]
  decide

/-! ## Claim C6 — original removed only after full success; failures isolated -/

/-- **C6.** `split_file` removes the original only on a run where every
chunk write succeeded (and then all `num_chunks` chunk files are there);
a chunk-write failure anywhere in the sequence leaves the original intact
and the call reports failure; such a failing file makes `scan_and_split`
count one more failure, and the scan proceeds to the remaining files: the
loop equation holds unconditionally, and every non-chunk file of the list
— after the failing one included — is still counted as scanned. -/
theorem C6_remove_only_after_success (p : String) (data : List Nat) (C : Nat)
    (wOk : Nat → Bool) (removeOk : Bool) (maxBytes chunkBytes : Nat)
    (acc : SplitCounters) (f : ScanFile) (rest : List ScanFile) :
    ((split_file p data C wOk removeOk).removedOriginal = true →
      (∀ k, 1 ≤ k → k < 1 + num_chunks data.length C → wOk k = true) ∧
      (split_file p data C wOk removeOk).chunks.length = num_chunks data.length C)
    ∧ ((∃ k, 1 ≤ k ∧ k < 1 + num_chunks data.length C ∧ wOk k = false) →
      (split_file p data C wOk removeOk).removedOriginal = false ∧
      (split_file p data C wOk removeOk).ok = false)
    ∧ (f.bytes = some data → containsSub chunk_marker.data f.name.data = false →
      maxBytes < data.length →
      (split_file f.name data chunkBytes f.writeOk f.removeOk).ok = false →
      scan_step maxBytes chunkBytes f = .splitFailedRun ∧
      (apply_action acc .splitFailedRun).files_failed = acc.files_failed + 1)
    ∧ scan_and_split maxBytes chunkBytes acc (f :: rest) =
        scan_and_split maxBytes chunkBytes
          (apply_action acc (scan_step maxBytes chunkBytes f)) rest
    ∧ (scan_and_split maxBytes chunkBytes acc (f :: rest)).files_scanned =
        acc.files_scanned +
          ((f :: rest).filter
            (fun g => !containsSub chunk_marker.data g.name.data)).length := by
  refine ⟨?_, ?_, ?_, ?_, ?_⟩
  · intro hrem
    have hw2 : (writeChunks p C wOk data 1 (num_chunks data.length C)).2 = true := by
      have h := hrem
      simp only [split_file, Bool.and_eq_true] at h
      exact h.1
    refine ⟨(writeChunks_snd_true_iff p C wOk (num_chunks data.length C) data 1).mp hw2, ?_⟩
    show (writeChunks p C wOk data 1 (num_chunks data.length C)).1.length = _
    rw [writeChunks_fst_of_success p C wOk (num_chunks data.length C) data 1 hw2]
    simp
  · rintro ⟨k, hk1, hk2, hk3⟩
    have hw2 : (writeChunks p C wOk data 1 (num_chunks data.length C)).2 = false := by
      cases hw : (writeChunks p C wOk data 1 (num_chunks data.length C)).2 with
      | false => rfl
      | true =>
        have := (writeChunks_snd_true_iff p C wOk
          (num_chunks data.length C) data 1).mp hw k hk1 hk2
        rw [hk3] at this
        exact absurd this (by simp)
    constructor
    · show ((writeChunks p C wOk data 1 (num_chunks data.length C)).2 && removeOk) = false
      rw [hw2]; rfl
    · show ((writeChunks p C wOk data 1 (num_chunks data.length C)).2 && removeOk) = false
      rw [hw2]; rfl
  · intro hbytes hname hsz hfail
    constructor
    · simp [scan_step, hname, hbytes, hsz, hfail]
    · rfl
  · rfl
  · exact scan_scanned_count maxBytes chunkBytes (f :: rest) acc

/-- Witness for C6: a 1-byte file whose only chunk write fails. -/
theorem C6_remove_only_after_success_witness :
    (split_file "g" [7] 1 (fun _ => false) true).removedOriginal = false
    ∧ (split_file "g" [7] 1 (fun _ => false) true).ok = false
    ∧ scan_step 0 1 ⟨"g", some [7], fun _ => false, true⟩ = .splitFailedRun
    ∧ (apply_action ⟨0, 0, 0⟩ .splitFailedRun).files_failed = 1 := by
  have h := C6_remove_only_after_success "g" [7] 1 (fun _ => false) true 0 1
    ⟨0, 0, 0⟩ ⟨"g", some [7], fun _ => false, true⟩ []
  have hb := h.2.1 ⟨1, by decide, by decide, rfl⟩
  have hc := h.2.2.1 rfl (by decide) (by decide) (by decide)
  exact ⟨hb.1, hb.2, hc.1, hc.2⟩

/-! ## Claim C8 — `chunkSize >= maxSize` is rejected before any scanning -/

/-- **C8.** Any invocation with `chunkMB ≥ maxMB` (Python ints, MB) makes
`main` exit with code 1 at the configuration check; the outcome never
reaches `scan_and_split`, so no file is read, split, or deleted. -/
theorem C8_config_rejection (baseDir : String) (maxMB chunkMB : Int)
    (h : maxMB ≤ chunkMB) :
    main_validate baseDir maxMB chunkMB = .configErrorExit 1
    ∧ (main_validate baseDir maxMB chunkMB).scans = false := by
  constructor
  · simp [main_validate, h]
  · simp [main_validate, h, MainOutcome.scans]

/-- Witness for C8 at the boundary `chunkMB = maxMB = 90`. -/
theorem C8_config_rejection_witness :
    main_validate "ubuntu_ports_downloads" 90 90 = .configErrorExit 1
    ∧ (main_validate "ubuntu_ports_downloads" 90 90).scans = false :=
  C8_config_rejection "ubuntu_ports_downloads" 90 90 (by decide)

/-! ## Claim C9 — strictly-greater-than split threshold -/

/-- **C9.** A scanned regular file without the chunk marker in its name is
handed to `split_file` iff its byte size strictly exceeds
`maxMB * 1024 * 1024`; in particular a file of exactly that size is not
split (and by the iff, one byte more is split). -/
theorem C9_threshold (maxMB chunkBytes : Nat) (f : ScanFile) (data : List Nat)
    (hname : containsSub chunk_marker.data f.name.data = false)
    (hbytes : f.bytes = some data) :
    ((scan_step (maxMB * 1024 * 1024) chunkBytes f).attemptsSplit = true ↔
      maxMB * 1024 * 1024 < data.length)
    ∧ (data.length = maxMB * 1024 * 1024 →
      (scan_step (maxMB * 1024 * 1024) chunkBytes f).attemptsSplit = false) := by
  have hstep : scan_step (maxMB * 1024 * 1024) chunkBytes f =
      (if maxMB * 1024 * 1024 < data.length then
        (if (split_file f.name data chunkBytes f.writeOk f.removeOk).ok then
          FileAction.splitSucceeded
        else FileAction.splitFailedRun)
      else FileAction.tooSmall) := by
    simp [scan_step, hname, hbytes]
  constructor
  · rw [hstep]
    by_cases hsz : maxMB * 1024 * 1024 < data.length <;>
      by_cases hok : (split_file f.name data chunkBytes f.writeOk f.removeOk).ok = true <;>
        simp [hsz, hok, FileAction.attemptsSplit]
  · intro heq
    rw [hstep, if_neg (by omega)]
    rfl

/-- Witness for C9 with `maxMB = 0`: the empty file is not split, the
1-byte file is. -/
theorem C9_threshold_witness :
    (scan_step 0 1 ⟨"a", some [7], fun _ => true, true⟩).attemptsSplit = true
    ∧ (scan_step 0 1 ⟨"a", some [], fun _ => true, true⟩).attemptsSplit = false := by
  constructor
  · exact (C9_threshold 0 1 ⟨"a", some [7], fun _ => true, true⟩ [7]
      (by decide) rfl).1.mpr (by decide)
  · exact (C9_threshold 0 1 ⟨"a", some [], fun _ => true, true⟩ []
      (by decide) rfl).2 rfl

/-! ## Claim C3 — first-level directory range filter -/

/-- **C3 counterexample.** With `start_dir = "h/"` (a bound carrying its
trailing slash, the form the source's own comment suggests) and no end
bound, the name `"h/"` (stripped: `"h"`) is accepted by the code, while
the claim's reading `start ≤ d` compares against the unstripped bound
`"h/"` and rejects it. -/
theorem C3_counterexample :
    should_process_directory (some "h/") none "h/" ≠
      shouldProcessSpecC3 (some "h/") none (rstripSlashes "h/") := by
  decide

/-- **C3 amended.** The filter accepts a name iff it lies between the
bounds with the bounds' trailing slashes stripped, a bound that is absent
or empty imposing no constraint on its side (in particular, with both
bounds absent every name passes). -/
theorem C3_range_filter_amended (start_dir end_dir : Option String)
    (dirname : String) :
    should_process_directory start_dir end_dir dirname =
      shouldProcessAmendedC3 start_dir end_dir (rstripSlashes dirname) := by
  cases h1 : truthyStr start_dir <;> cases h2 : truthyStr end_dir <;>
    simp [should_process_directory, shouldProcessAmendedC3, h1, h2]

/-! ## Claim C2 — local path mapping -/

/-- **C2 counterexample.** For the spec's example remote root
`https://host/pool/universe` the URL path does not start with the
hard-coded literal `/ubuntu-ports/pool/universe/`, so nothing is
stripped and the absolute path discards the output root: the computed
path is not `out/h/htop/htop_3.0.5.deb`. -/
theorem C2_counterexample :
    get_local_path "out/" "https://host/pool/universe/h/htop/htop_3.0.5.deb" ≠
      "out/h/htop/htop_3.0.5.deb" := by
  decide

/-- `replace(pat, '', 1)` on a string that starts with `pat` just drops
the prefix. -/
theorem removeFirst_of_prefix (pat s : List Char)
    (hne : pat ≠ []) (h : pat.isPrefixOf s = true) :
    removeFirst pat s = s.drop pat.length := by
  cases s with
  | nil =>
    cases pat with
    | nil => exact absurd rfl hne
    | cons c t => simp [List.isPrefixOf] at h
  | cons c t => simp [removeFirst, h]

/-- **C2 amended.** The stripped prefix is the fixed literal
`/ubuntu-ports/pool/universe/`, independent of the configured base URL:
the local path is the output root POSIX-joined with the URL path after
dropping that literal prefix when present.  For a file URL under the
default remote root `https://ports.ubuntu.com/ubuntu-ports/pool/universe`
and output root `out/`, this gives `out/h/htop/htop_3.0.5.deb`. -/
theorem C2_path_mapping_amended (output_dir url : String) :
    get_local_path output_dir url =
      posixJoin output_dir (stripPoolPrefix (urlPath url))
    ∧ get_local_path "out/"
        "https://ports.ubuntu.com/ubuntu-ports/pool/universe/h/htop/htop_3.0.5.deb" =
      "out/h/htop/htop_3.0.5.deb" := by
  constructor
  · unfold get_local_path stripPoolPrefix
    by_cases h : pool_prefix.data.isPrefixOf (urlPath url).data = true
    · simp only [h, if_true]
      congr 2
      exact removeFirst_of_prefix pool_prefix.data (urlPath url).data (by decide) h
    · simp [h]
  · decide

/-! ## Claim C10 — non-matching absolute paths escape the output root -/

/-- **C10.** When a file URL's (absolute) path does not start with the
literal `/ubuntu-ports/pool/universe/`, `os.path.join` sees an absolute
second argument and discards the output root: the local path is the URL
path itself, and (for a relative output root) it does not lie under the
output directory. -/
theorem C10_prefix_mismatch_escapes (output_dir url : String)
    (h1 : (urlPath url).data.head? = some '/')
    (h2 : pool_prefix.data.isPrefixOf (urlPath url).data = false) :
    get_local_path output_dir url = urlPath url
    ∧ (output_dir.data ≠ [] → output_dir.data.head? ≠ some '/' →
      output_dir.data.isPrefixOf (get_local_path output_dir url).data = false) := by
  have hfirst : get_local_path output_dir url = urlPath url := by
    unfold get_local_path posixJoin
    simp [h1, h2]
  refine ⟨hfirst, ?_⟩
  intro hne hslash
  rw [hfirst]
  rcases hout : output_dir.data with _ | ⟨o, os⟩
  · exact absurd hout hne
  rcases hurl : (urlPath url).data with _ | ⟨c, rs⟩
  · rw [hurl] at h1; simp at h1
  have hc : c = '/' := by
    rw [hurl] at h1
    simpa using h1
  have ho : o ≠ '/' := by
    intro hcon
    rw [hout, hcon] at hslash
    simp at hslash
  simp [List.isPrefixOf, hc, ho]

/-- Witness for C10 at the spec's example URL with output root `out`. -/
theorem C10_prefix_mismatch_escapes_witness :
    get_local_path "out" "https://host/pool/universe/h/htop/htop_3.0.5.deb" =
      "/pool/universe/h/htop/htop_3.0.5.deb"
    ∧ "out".data.isPrefixOf
        (get_local_path "out" "https://host/pool/universe/h/htop/htop_3.0.5.deb").data
        = false := by
  have h := C10_prefix_mismatch_escapes "out"
    "https://host/pool/universe/h/htop/htop_3.0.5.deb" (by decide) (by decide)
  exact ⟨h.1.trans (by decide), h.2 (by decide) (by decide)⟩

/-! ## Claim C4 — behaviour when the metadata probe fails or size is unknown -/

/-- **C4 counterexample.** Local file present, HEAD probe raises, a GET
would have succeeded (`bodyGet = some [1, 2]`): the code counts the file
Failed without attempting any transfer, instead of performing the full
streamed transfer the claim describes. -/
theorem C4_counterexample :
    (download_file none (some [1, 2]) none (some [9])).outcome = .Failed
    ∧ (download_file none (some [1, 2]) none (some [9])).fetchedBody = false := by
  decide

/-- **C4 amended.** For a file whose local copy exists: a raising HEAD
probe is counted Failed with no transfer attempted; a successful probe
with unknown size (missing `content-length`, defaulted to `0`) leads to a
full streamed transfer — Downloaded on success, Failed on transport/I-O
error — unless the local file is empty, in which case its size equals the
defaulted `0` and the file is Skipped. -/
theorem C4_probe_failure_amended (bodyGet lof : Option (List Nat))
    (l b : List Nat) (hne : l ≠ []) :
    download_file none bodyGet lof (some l) =
      { outcome := .Failed, localAfter := some l, fetchedBody := false }
    ∧ download_file (some none) (some b) lof (some l) =
      { outcome := .Downloaded, localAfter := some b, fetchedBody := true }
    ∧ download_file (some none) none lof (some l) =
      { outcome := .Failed, localAfter := lof, fetchedBody := true }
    ∧ download_file (some none) bodyGet lof (some []) =
      { outcome := .Skipped, localAfter := some [], fetchedBody := false } := by
  have hlen : ¬(l.length = 0) := fun h => hne (List.eq_nil_of_length_eq_zero h)
  refine ⟨rfl, ?_, ?_, rfl⟩
  · simp [download_file, hlen]
  · simp [download_file, hlen]

/-- Witness for C4 (amended) with a nonempty 1-byte local file. -/
theorem C4_probe_failure_amended_witness :
    download_file none (some [1]) none (some [9]) =
      { outcome := .Failed, localAfter := some [9], fetchedBody := false }
    ∧ download_file (some none) (some [1]) none (some [9]) =
      { outcome := .Downloaded, localAfter := some [1], fetchedBody := true } := by
  have h := C4_probe_failure_amended (some [1]) none [9] [1] (by decide)
  exact ⟨h.1, h.2.1⟩

/-! ## Claim C5 — skip of complete files and idempotent re-run -/

/-- **C5.** A file already fully present (local size equal to the
declared remote size) is Skipped without fetching the body; and against
an unchanged remote (HEAD declares the body's true length), a first run
with no local file Downloads the body and a second run Skips, the local
bytes being `some b` after both runs. -/
theorem C5_skip_and_idempotent (n : Nat) (l : List Nat)
    (bodyGet lof lof1 lof2 : Option (List Nat)) (b : List Nat)
    (hlen : l.length = n) :
    download_file (some (some n)) bodyGet lof (some l) =
      { outcome := .Skipped, localAfter := some l, fetchedBody := false }
    ∧ download_file (some (some b.length)) (some b) lof1 none =
      { outcome := .Downloaded, localAfter := some b, fetchedBody := true }
    ∧ download_file (some (some b.length)) (some b) lof2
        (download_file (some (some b.length)) (some b) lof1 none).localAfter =
      { outcome := .Skipped, localAfter := some b, fetchedBody := false } := by
  refine ⟨?_, rfl, ?_⟩
  · simp [download_file, hlen]
  · simp [download_file]

/-- Witness for C5: a complete 2-byte local file is Skipped; a fresh
1-byte file is Downloaded. -/
theorem C5_skip_and_idempotent_witness :
    download_file (some (some 2)) none none (some [5, 6]) =
      { outcome := .Skipped, localAfter := some [5, 6], fetchedBody := false }
    ∧ download_file (some (some 1)) (some [7]) none none =
      { outcome := .Downloaded, localAfter := some [7], fetchedBody := true } := by
  have h := C5_skip_and_idempotent 2 [5, 6] none none none none [7] rfl
  exact ⟨h.1, h.2.1⟩

/-! ## Claim C7 — depth-capped crawl terminates on cyclic listings -/

/-- Every directory fetch the crawl performs happens at depth ≤ 20,
whatever the listing graph. -/
theorem crawl_visits_depth_le (listing : String → List String)
    (start_dir end_dir : Option String) :
    ∀ (fuel : Nat) (url : String) (depth : Nat), 21 - depth ≤ fuel →
      ((crawl_and_download listing start_dir end_dir url depth).all
        (fun v => v.2 ≤ 20)) = true := by
  intro fuel
  induction fuel with
  | zero =>
    intro url depth h
    rw [crawl_and_download, dif_pos (by omega : 20 < depth)]
    rfl
  | succ m ih =>
    intro url depth h
    rw [crawl_and_download]
    by_cases hd : 20 < depth
    · rw [dif_pos hd]; rfl
    · rw [dif_neg hd, List.all_cons, Bool.and_eq_true]
      refine ⟨by simp only [decide_eq_true_eq]; omega, ?_⟩
      rw [List.all_eq_true]
      intro v hv
      rw [List.mem_flatMap] at hv
      obtain ⟨link, _, hv2⟩ := hv
      by_cases hdir : link.endsWith "/" = true
      · rw [if_pos hdir] at hv2
        by_cases hfilt :
            (depth = 0 && !should_process_directory start_dir end_dir link) = true
        · rw [if_pos hfilt] at hv2
          simp at hv2
        · rw [if_neg hfilt] at hv2
          exact List.all_eq_true.mp
            (ih (url ++ "/" ++ link) (depth + 1) (by omega)) v hv2
      · rw [if_neg hdir] at hv2
        simp at hv2

/-- **C7.** The crawl halts unconditionally once `depth > 20` — it
returns without fetching anything — and on any listing graph (cyclic ones
included) no traversal path fetches a directory at depth beyond the cap. -/
theorem C7_depth_cap (listing : String → List String)
    (start_dir end_dir : Option String) (url : String) (depth : Nat) :
    (20 < depth → crawl_and_download listing start_dir end_dir url depth = [])
    ∧ ((crawl_and_download listing start_dir end_dir url depth).all
        (fun v => v.2 ≤ 20)) = true := by
  constructor
  · intro h
    rw [crawl_and_download, dif_pos h]
  · exact crawl_visits_depth_le listing start_dir end_dir 21 url depth (by omega)

/-- Witness for C7 on the one-directory cyclic listing `A/ → A/`. -/
theorem C7_depth_cap_witness :
    crawl_and_download (fun _ => ["A/"]) none none "A" 21 = []
    ∧ ((crawl_and_download (fun _ => ["A/"]) none none "A" 0).all
        (fun v => v.2 ≤ 20)) = true :=
  ⟨(C7_depth_cap (fun _ => ["A/"]) none none "A" 21).1 (by decide),
   (C7_depth_cap (fun _ => ["A/"]) none none "A" 0).2⟩

end Tools
